import Mathlib

/-!
Verification development for the ChronoFrise single-page timeline
application (src/App.jsx).  The application state (the `items` array of
event records, the `selectedEvent`, the `isEditing` flag and the
localStorage mirror) and its event handlers (`handleAddEvent`,
`handleExport`, `handleImport`, `handleDeleteEvent`, `handleEditSubmit`)
are embedded shallowly.

JavaScript runtime values are modelled by the inductive `JVal`
(null, undefined, booleans, numbers, strings, arrays, objects); numbers
are rationals or NaN (`JNum`).  The external JSON text layer
(`JSON.stringify` / `JSON.parse`) is modelled at the level of parse
trees: a JSON document is represented by the `JVal` it parses to, and
the composite `parse (stringify v)` is the normal form `toJson v`,
which performs exactly the lossy part of that round trip (NaN and
Infinity numbers become null, undefined array elements become null,
undefined object fields are dropped); rendering a tree to text and
lexing it back is the identity on trees and is not modelled further.
-/

namespace ChronoFrise

/-- JavaScript numbers as they occur in this program: a finite value
(modelled as an exact rational), positive or negative Infinity, or NaN.
Rounding of finite values to double precision (and overflow of huge
finite literals to Infinity) is not modelled: finite values stay exact. -/
inductive JNum : Type where
  | finite (q : ℚ)
  | inf
  | negInf
  | nan
deriving DecidableEq, Repr

/-- JavaScript runtime values: null, undefined, booleans, numbers,
strings, arrays and plain objects (ordered field lists). -/
inductive JVal : Type where
  | null
  | undef
  | bool (b : Bool)
  | num (n : JNum)
  | str (s : String)
  | arr (xs : List JVal)
  | obj (fs : List (String × JVal))
deriving Repr

/-- JavaScript strict equality `===` restricted to the comparisons the
program performs: primitives compare by value, NaN is unequal to
everything including itself, and two distinct heap objects or arrays
compare unequal (reference equality of distinct references). -/
def jsEq : JVal → JVal → Bool
  | .null, .null => true
  | .undef, .undef => true
  | .bool a, .bool b => a == b
  | .num (.finite a), .num (.finite b) => a == b
  | .num .inf, .num .inf => true
  | .num .negInf, .num .negInf => true
  | .str a, .str b => a == b
  | _, _ => false

/-- Tests whether a value is the JavaScript `undefined`. -/
def isUndef : JVal → Bool
  | .undef => true
  | _ => false

mutual

/-- Normal form of `JSON.parse (JSON.stringify v)`: NaN and Infinity
numbers become null, undefined array elements become null, object fields
whose value is undefined are dropped; everything else is preserved. -/
def toJson : JVal → JVal
  | .null => .null
  | .undef => .undef
  | .bool b => .bool b
  | .num (.finite q) => .num (.finite q)
  | .num .inf => .null
  | .num .negInf => .null
  | .num .nan => .null
  | .str s => .str s
  | .arr xs => .arr (toJsonList xs)
  | .obj fs => .obj (toJsonFields fs)

/-- `toJson` on the elements of an array (undefined elements serialize
as null). -/
def toJsonList : List JVal → List JVal
  | [] => []
  | v :: rest => (if isUndef v then .null else toJson v) :: toJsonList rest

/-- `toJson` on the fields of an object (fields with undefined values
are dropped by `JSON.stringify`). -/
def toJsonFields : List (String × JVal) → List (String × JVal)
  | [] => []
  | (k, v) :: rest =>
      if isUndef v then toJsonFields rest else (k, toJson v) :: toJsonFields rest

end

mutual

/-- A value is pure when it contains no NaN or Infinity number and no
undefined: exactly the values on which stringify-then-parse is the
identity. -/
def isPure : JVal → Bool
  | .null => true
  | .undef => false
  | .bool _ => true
  | .num (.finite _) => true
  | .num .inf => false
  | .num .negInf => false
  | .num .nan => false
  | .str _ => true
  | .arr xs => isPureList xs
  | .obj fs => isPureFields fs

/-- Purity of every element of a list of values. -/
def isPureList : List JVal → Bool
  | [] => true
  | v :: rest => isPure v && isPureList rest

/-- Purity of every field value of an object. -/
def isPureFields : List (String × JVal) → Bool
  | [] => true
  | (_, v) :: rest => isPure v && isPureFields rest

end

theorem isUndef_eq_false_of_isPure {v : JVal} (h : isPure v = true) :
    isUndef v = false := by
  cases v <;> simp_all [isPure, isUndef]

mutual

theorem toJson_of_isPure : ∀ v : JVal, isPure v = true → toJson v = v
  | .null, _ => rfl
  | .bool _, _ => rfl
  | .num (.finite _), _ => rfl
  | .num .inf, h => by simp [isPure] at h
  | .num .negInf, h => by simp [isPure] at h
  | .num .nan, h => by simp [isPure] at h
  | .undef, h => by simp [isPure] at h
  | .str _, _ => rfl
  | .arr xs, h => by
      rw [toJson, toJsonList_of_isPureList xs (by simpa [isPure] using h)]
  | .obj fs, h => by
      rw [toJson, toJsonFields_of_isPureFields fs (by simpa [isPure] using h)]

theorem toJsonList_of_isPureList :
    ∀ xs : List JVal, isPureList xs = true → toJsonList xs = xs
  | [], _ => rfl
  | v :: rest, h => by
      have h1 : isPure v = true := by
        have hh := h; simp [isPureList] at hh; exact hh.1
      have h2 : isPureList rest = true := by
        have hh := h; simp [isPureList] at hh; exact hh.2
      rw [toJsonList, isUndef_eq_false_of_isPure h1]
      simp only [Bool.false_eq_true, if_false]
      rw [toJson_of_isPure v h1, toJsonList_of_isPureList rest h2]

theorem toJsonFields_of_isPureFields :
    ∀ fs : List (String × JVal), isPureFields fs = true → toJsonFields fs = fs
  | [], _ => rfl
  | (k, v) :: rest, h => by
      have h1 : isPure v = true := by
        have hh := h; simp [isPureFields] at hh; exact hh.1
      have h2 : isPureFields rest = true := by
        have hh := h; simp [isPureFields] at hh; exact hh.2
      rw [toJsonFields, isUndef_eq_false_of_isPure h1]
      simp only [Bool.false_eq_true, if_false]
      rw [toJson_of_isPure v h1, toJsonFields_of_isPureFields rest h2]

end

theorem jsEq_eq : ∀ {a b : JVal}, jsEq a b = true → a = b := by
  intro a b h
  cases a <;> cases b <;> simp_all [jsEq]
  rename_i n m
  cases n <;> cases m <;> simp_all [jsEq]

/-- Decimal digit test on characters (`0`–`9`). -/
def isDigitCh (c : Char) : Bool := 48 ≤ c.toNat && c.toNat ≤ 57

/-- Numeric value of a list of decimal digit characters. -/
def natOfDigits (ds : List Char) : Nat :=
  ds.foldl (fun a c => 10 * a + (c.toNat - 48)) 0

/-- Value of an optional exponent part following the mantissa:
`e`/`E`, an optional sign, then digits; anything else (including an
exponent marker without digits) contributes exponent 0, as JavaScript's
longest-valid-prefix rule then stops before the marker. -/
def parseExponent : List Char → ℤ
  | c :: r =>
      if c == 'e' || c == 'E' then
        let se : Bool × List Char :=
          match r with
          | '-' :: r2 => (true, r2)
          | '+' :: r2 => (false, r2)
          | _ => (false, r)
        let eds := se.2.takeWhile isDigitCh
        if eds.isEmpty then 0
        else if se.1 then -(natOfDigits eds : ℤ) else (natOfDigits eds : ℤ)
      else 0
  | [] => 0

/-- JavaScript `parseFloat`: skip leading spaces, an optional sign,
then either the literal `Infinity` (giving ±Infinity) or integer
digits, an optional fraction and an optional exponent; NaN when no
digit is found.  Trailing garbage after the longest valid prefix is
ignored.  Finite results are kept as exact rationals (see `JNum`). -/
def parseFloat (s : String) : JNum :=
  let cs := s.toList.dropWhile (fun c => c == ' ')
  let neg : Bool :=
    match cs with
    | '-' :: _ => true
    | _ => false
  let body : List Char :=
    match cs with
    | '-' :: r => r
    | '+' :: r => r
    | _ => cs
  if body.take 8 = "Infinity".toList then
    if neg then .negInf else .inf
  else
    let ds := body.takeWhile isDigitCh
    let rest := body.dropWhile isDigitCh
    let frac : List Char × List Char :=
      match rest with
      | '.' :: r => (r.takeWhile isDigitCh, r.dropWhile isDigitCh)
      | _ => ([], rest)
    if ds.isEmpty && frac.1.isEmpty then .nan
    else
      .finite ((if neg then (-1 : ℚ) else 1)
        * ((natOfDigits ds : ℚ) + (natOfDigits frac.1 : ℚ) / (10 : ℚ) ^ frac.1.length)
        * (10 : ℚ) ^ parseExponent frac.2)

/-- Object property read `fs[key]`: first field with that name, or
undefined when absent. -/
def objGet : List (String × JVal) → String → JVal
  | [], _ => .undef
  | (k, v) :: rest, key => if k = key then v else objGet rest key

namespace JVal

/-- JavaScript property access `v.key`: undefined on non-objects (the
program only reads properties of objects or of values it just tested). -/
def get : JVal → String → JVal
  | .obj fs, key => objGet fs key
  | _, _ => .undef

end JVal

/-- Object property write: overwrite the first field with that name in
place, or append the field at the end (JavaScript object insertion
order). -/
def objSet : List (String × JVal) → String → JVal → List (String × JVal)
  | [], key, x => [(key, x)]
  | (k, v) :: rest, key, x =>
      if k = key then (k, x) :: rest else (k, v) :: objSet rest key x

/-- Fields contributed by an object spread `{...v}`: the fields of an
object, nothing for null or other non-objects. -/
def spreadFields : JVal → List (String × JVal)
  | .obj fs => fs
  | _ => []

/-- Object literal with a leading spread, `{...base, k1: v1, ...}`:
the base's fields updated by each override in order. -/
def spreadWith (base : JVal) (updates : List (String × JVal)) : JVal :=
  .obj (updates.foldl (fun fs kv => objSet fs kv.1 kv.2) (spreadFields base))

/-- The values read from the event form's named inputs (`form.title.value`
and the rest), all of which are strings. -/
structure EventForm where
  title : String
  start : String
  endDate : String
  description : String
  image : String
  locationName : String
  lat : String
  lng : String

/-- Value of the expression `str || null`: the empty string is the only
falsy string, so it maps to null and anything else to itself. -/
def orNull (s : String) : JVal := if s = "" then .null else .str s

/-- The object literal built by `handleAddEvent`: id is the creation
timestamp `Date.now().toString()`, content duplicates the title, an
empty end field becomes null, lat/lng go through `parseFloat`, and
`linksTo` starts empty. -/
def mkNewEvent (f : EventForm) (now : Nat) : JVal :=
  .obj [
    ("id", .str (toString now)),
    ("content", .str f.title),
    ("start", .str f.start),
    ("end", orNull f.endDate),
    ("title", .str f.title),
    ("description", .str f.description),
    ("image", .str f.image),
    ("location", .obj [
      ("name", .str f.locationName),
      ("lat", .num (parseFloat f.lat)),
      ("lng", .num (parseFloat f.lng))]),
    ("linksTo", .arr [])]

/-- The object literal built by `handleEditSubmit`:
`{...selectedEvent, content, start, end, title, description, image,
location}` — every field of the selected record, with the submitted
fields overriding; `id` is not among the overrides, so it is preserved. -/
def mkUpdatedEvent (sel : JVal) (f : EventForm) : JVal :=
  spreadWith sel [
    ("content", .str f.title),
    ("start", .str f.start),
    ("end", orNull f.endDate),
    ("title", .str f.title),
    ("description", .str f.description),
    ("image", .str f.image),
    ("location", .obj [
      ("name", .str f.locationName),
      ("lat", .num (parseFloat f.lat)),
      ("lng", .num (parseFloat f.lng))])]

/-- Application state of the `App` component: the `items` array (the
Event Store), the selected event, the edit flag, and the parse tree of
the string persisted in `localStorage` under the fixed key
`timeline-events` (`none` = key absent). -/
structure AppState where
  items : List JVal
  selectedEvent : Option JVal
  isEditing : Bool
  storage : Option JVal

/-- JSON serialization of the record sequence, as a parse tree (this is
`JSON.stringify(items, ...)` composed with re-parsing; pretty-printing
is whitespace only and does not affect the tree). -/
def serializeItems (items : List JVal) : JVal := toJson (.arr items)

/-- The persistence effect `useEffect(() =>
localStorage.setItem(LOCAL_STORAGE_KEY, JSON.stringify(items)), [items])`,
which runs after every state update that changes `items`. -/
def persist (s : AppState) : AppState :=
  { s with storage := some (serializeItems s.items) }

/-- Startup state when `localStorage` holds nothing under the key:
empty item list, no selection, not editing. -/
def initialState : AppState :=
  { items := [], selectedEvent := none, isEditing := false, storage := none }

/-- Handler `handleAddEvent`: build the new event record, append it to
`items`, select it, and let the persistence effect run.  (`isEditing`
is not touched; `pendingSelection` re-targets the same record in the
deferred timeline-selection step.) -/
def handleAddEvent (f : EventForm) (now : Nat) (s : AppState) : AppState :=
  let newEvent := mkNewEvent f now
  persist { s with
    items := s.items ++ [newEvent],
    selectedEvent := some newEvent }

/-- Handler `handleExport`: the downloaded document
`JSON.stringify(items, null, 2)`, represented by its parse tree. -/
def handleExport (s : AppState) : JVal := serializeItems s.items

/-- Result of an import attempt: the new application state plus the
alerts raised while handling it. -/
structure ImportResult where
  state : AppState
  alerts : List String

/-- Alert text shown when the uploaded file fails to parse as JSON. -/
def parseErrorAlert : String := "Erreur lors de l'importation du fichier JSON."

/-- Alert text shown when the parsed document is not an array. -/
def notArrayAlert : String := "Le fichier n'est pas un tableau valide."

/-- Array test `Array.isArray`. -/
def isArray : JVal → Bool
  | .arr _ => true
  | _ => false

/-- Handler `handleImport` applied to the outcome of `JSON.parse` on the
uploaded file's text: a parse failure raises one alert and changes
nothing; a non-array document raises one (different) alert and changes
nothing; an array wholesale-replaces `items` (elements trusted as-is)
and the persistence effect runs.  Selection and edit flag are untouched
in every case. -/
def handleImport (parsed : Except Unit JVal) (s : AppState) : ImportResult :=
  match parsed with
  | .error _ => ⟨s, [parseErrorAlert]⟩
  | .ok (.arr xs) => ⟨persist { s with items := xs }, []⟩
  | .ok _ => ⟨s, [notArrayAlert]⟩

/-- Handler `handleDeleteEvent`: a no-op when nothing is selected;
otherwise keep the items whose `id` is strictly unequal to the selected
record's `id`, clear the selection, and let the persistence effect
run. -/
def handleDeleteEvent (s : AppState) : AppState :=
  match s.selectedEvent with
  | none => s
  | some sel =>
      persist { s with
        items := s.items.filter (fun it => !(jsEq (it.get "id") (sel.get "id"))),
        selectedEvent := none }

/-- Handler `handleEditSubmit`: build the updated record by spreading
the selected record and overriding the submitted fields, replace every
item whose `id` strictly equals the updated record's `id`, select the
updated record, leave edit mode, and let the persistence effect run. -/
def handleEditSubmit (f : EventForm) (s : AppState) : AppState :=
  let sel := s.selectedEvent.getD .null
  let updatedEvent := mkUpdatedEvent sel f
  persist { s with
    items := s.items.map (fun it =>
      if jsEq (it.get "id") (updatedEvent.get "id") then updatedEvent else it),
    selectedEvent := some updatedEvent,
    isEditing := false }

/-- The store mutations of §4.1: add, edit, delete and import. -/
inductive Op : Type where
  | add (f : EventForm) (now : Nat)
  | edit (f : EventForm)
  | delete
  | importOp (parsed : Except Unit JVal)

/-- Effect of one operation on the application state (alerts raised by
a failed import are dropped here; the state is unchanged in that case). -/
def applyOp : Op → AppState → AppState
  | .add f now, s => handleAddEvent f now s
  | .edit f, s => handleEditSubmit f s
  | .delete, s => handleDeleteEvent s
  | .importOp p, s => (handleImport p s).state

/-- States reachable from the empty startup state by any sequence of
add, edit, delete and import operations. -/
inductive Reachable : AppState → Prop where
  | init : Reachable initialState
  | step (op : Op) {s : AppState} : Reachable s → Reachable (applyOp op s)

/-- The ids of the records of a store, in store order. -/
def idsOf (items : List JVal) : List JVal := items.map (fun it => it.get "id")

/-- Id uniqueness: no two records of the store have strictly equal ids. -/
def UniqueIds (items : List JVal) : Prop :=
  List.Pairwise (fun a b => jsEq a b = false) (idsOf items)

theorem jsEq_str_self (a : String) : jsEq (.str a) (.str a) = true := by
  simp [jsEq]

theorem objGet_objSet (fs : List (String × JVal)) (k key : String) (x : JVal) :
    objGet (objSet fs k x) key = if k = key then x else objGet fs key := by
  induction fs with
  | nil => simp [objSet, objGet]
  | cons a rest ih =>
      obtain ⟨ka, va⟩ := a
      by_cases hk : ka = k
      · subst hk
        simp only [objSet, if_pos rfl, objGet]
        by_cases hkey : ka = key <;> simp [hkey]
      · simp only [objSet, if_neg hk, objGet]
        by_cases hkey : ka = key
        · subst hkey
          have hne : ¬ k = ka := fun h => hk h.symm
          simp [hne]
        · simp [hkey, ih]

theorem mkUpdatedEvent_get_id (sel : JVal) (f : EventForm) :
    (mkUpdatedEvent sel f).get "id" = objGet (spreadFields sel) "id" := by
  simp [mkUpdatedEvent, spreadWith, JVal.get, List.foldl, objGet_objSet]

theorem mkUpdatedEvent_get_content (sel : JVal) (f : EventForm) :
    (mkUpdatedEvent sel f).get "content" = .str f.title := by
  simp [mkUpdatedEvent, spreadWith, JVal.get, List.foldl, objGet_objSet]

theorem mkUpdatedEvent_get_start (sel : JVal) (f : EventForm) :
    (mkUpdatedEvent sel f).get "start" = .str f.start := by
  simp [mkUpdatedEvent, spreadWith, JVal.get, List.foldl, objGet_objSet]

theorem mkUpdatedEvent_get_end (sel : JVal) (f : EventForm) :
    (mkUpdatedEvent sel f).get "end" = orNull f.endDate := by
  simp [mkUpdatedEvent, spreadWith, JVal.get, List.foldl, objGet_objSet]

theorem mkUpdatedEvent_get_title (sel : JVal) (f : EventForm) :
    (mkUpdatedEvent sel f).get "title" = .str f.title := by
  simp [mkUpdatedEvent, spreadWith, JVal.get, List.foldl, objGet_objSet]

theorem mkUpdatedEvent_get_description (sel : JVal) (f : EventForm) :
    (mkUpdatedEvent sel f).get "description" = .str f.description := by
  simp [mkUpdatedEvent, spreadWith, JVal.get, List.foldl, objGet_objSet]

theorem mkUpdatedEvent_get_image (sel : JVal) (f : EventForm) :
    (mkUpdatedEvent sel f).get "image" = .str f.image := by
  simp [mkUpdatedEvent, spreadWith, JVal.get, List.foldl, objGet_objSet]

theorem mkUpdatedEvent_get_location (sel : JVal) (f : EventForm) :
    (mkUpdatedEvent sel f).get "location"
      = .obj [("name", .str f.locationName),
              ("lat", .num (parseFloat f.lat)),
              ("lng", .num (parseFloat f.lng))] := by
  simp [mkUpdatedEvent, spreadWith, JVal.get, List.foldl, objGet_objSet]

theorem parseFloat_zero : parseFloat "0" = .finite 0 := by
  have h : parseFloat "0"
      = .finite ((1 : ℚ)
          * ((↑(natOfDigits ['0']) : ℚ)
            + (↑(natOfDigits ([] : List Char)) : ℚ)
              / (10 : ℚ) ^ ([] : List Char).length)
          * (10 : ℚ) ^ parseExponent []) := rfl
  rw [h]
  norm_num [natOfDigits, parseExponent]
  decide

theorem map_replace_of_no_match {p : JVal → Bool} {u : JVal} {l : List JVal}
    (h : ∀ x ∈ l, p x = false) :
    l.map (fun x => if p x then u else x) = l := by
  induction l with
  | nil => rfl
  | cons a t ih =>
      have ha : p a = false := h a (by simp)
      simp [ha, ih (fun x hx => h x (by simp [hx]))]

theorem idsOf_replace_matching (upd : JVal) (items : List JVal) :
    idsOf (items.map (fun it =>
      if jsEq (it.get "id") (upd.get "id") then upd else it)) = idsOf items := by
  induction items with
  | nil => rfl
  | cons a t ih =>
      simp only [List.map_cons, idsOf] at *
      by_cases h : jsEq (a.get "id") (upd.get "id") = true
      · rw [if_pos h]
        exact congrArg₂ List.cons (jsEq_eq h).symm ih
      · simp [h, ih]

end ChronoFrise

namespace ChronoFrise

/-- Store whose single record was added with an unparseable latitude:
its `location.lat` is NaN. -/
def c1BadState : AppState :=
  handleAddEvent ⟨"T", "2024-01-01", "", "", "", "", "x", "0"⟩ 0 initialState

/-- C1 (amended): for every store whose records contain no NaN or
Infinity number and no undefined value, exporting the store and
importing the exported document yields a store equal, record for record
and field for field, to the original. -/
theorem c1_export_import_roundtrip_pure (s : AppState)
    (h : isPureList s.items = true) :
    (handleImport (.ok (handleExport s)) s).state.items = s.items := by
  show toJsonList s.items = s.items
  exact toJsonList_of_isPureList _ h

/-- C1 witness: the round trip on a concrete one-record pure store. -/
theorem c1_export_import_roundtrip_pure_witness :
    (handleImport (.ok (handleExport
      (⟨[.obj [("id", .str "1"), ("title", .str "A")]], none, false, none⟩ : AppState)))
      (⟨[.obj [("id", .str "1"), ("title", .str "A")]], none, false, none⟩ : AppState)).state.items
    = [.obj [("id", .str "1"), ("title", .str "A")]] :=
  c1_export_import_roundtrip_pure
    (⟨[.obj [("id", .str "1"), ("title", .str "A")]], none, false, none⟩ : AppState) rfl

/-- C1 counterexample: on the reachable store whose single record has a
NaN latitude (added with latitude text "x"), export-then-import changes
the record: `location.lat` is NaN before and null after, so the
resulting store is not field-for-field equal to the original. -/
theorem c1_export_import_counterexample :
    c1BadState.items.length = 1
    ∧ (handleImport (.ok (handleExport c1BadState)) c1BadState).state.items.length = 1
    ∧ ((c1BadState.items.headD .null).get "location").get "lat" = .num .nan
    ∧ (((handleImport (.ok (handleExport c1BadState)) c1BadState).state.items.headD .null).get "location").get "lat" = .null
    ∧ (handleImport (.ok (handleExport c1BadState)) c1BadState).state.items ≠ c1BadState.items := by
  refine ⟨rfl, rfl, rfl, rfl, ?_⟩
  intro h
  have h2 := congrArg (fun l => ((l.headD JVal.null).get "location").get "lat") h
  have h3 : JVal.null = JVal.num .nan := h2
  exact JVal.noConfusion h3

/-- C2: importing a document that fails to parse leaves the whole state
unchanged and raises exactly the parse-error alert; importing a document
that parses to a non-array leaves the whole state unchanged and raises
exactly the not-an-array alert; the two alerts are distinct. -/
theorem c2_import_failure_alerts (s : AppState) (j : JVal) :
    handleImport (.error ()) s = ⟨s, [parseErrorAlert]⟩
    ∧ (isArray j = false → handleImport (.ok j) s = ⟨s, [notArrayAlert]⟩)
    ∧ parseErrorAlert ≠ notArrayAlert := by
  refine ⟨rfl, ?_, by decide⟩
  intro h
  cases j <;> simp_all [isArray, handleImport]

/-- C2 witness: importing a non-array object into the startup state. -/
theorem c2_import_failure_alerts_witness :
    handleImport (.ok (.obj [])) initialState = ⟨initialState, [notArrayAlert]⟩
    ∧ handleImport (.error ()) initialState = ⟨initialState, [parseErrorAlert]⟩ :=
  ⟨(c2_import_failure_alerts initialState (.obj [])).2.1 rfl,
   (c2_import_failure_alerts initialState (.obj [])).1⟩

end ChronoFrise

namespace ChronoFrise

/-- C3: adding an event whose required fields (title, start) are
non-empty appends the new record, keeps every old record unchanged,
grows the store by one, and immediately selects the new record. -/
theorem c3_add_increases_store (s : AppState) (f : EventForm) (now : Nat)
    (htitle : f.title ≠ "") (hstart : f.start ≠ "") :
    (handleAddEvent f now s).items = s.items ++ [mkNewEvent f now]
    ∧ (handleAddEvent f now s).items.length = s.items.length + 1
    ∧ (∀ r ∈ s.items, r ∈ (handleAddEvent f now s).items)
    ∧ (handleAddEvent f now s).selectedEvent = some (mkNewEvent f now) := by
  refine ⟨rfl, by simp [handleAddEvent, persist], ?_, rfl⟩
  intro r hr
  simp [handleAddEvent, persist]
  exact Or.inl hr

/-- C3 witness: the add handler at a concrete form and the startup
state. -/
theorem c3_add_increases_store_witness :
    (handleAddEvent ⟨"A", "2024-01-01", "", "", "", "", "0", "0"⟩ 7 initialState).items.length
      = initialState.items.length + 1 :=
  (c3_add_increases_store initialState ⟨"A", "2024-01-01", "", "", "", "", "0", "0"⟩ 7
    (by decide) (by decide)).2.1

/-- C4: submitting the edit form while a record (an object, present in
the store, with a string id that no other record's id equals) is
selected replaces exactly that record by the updated record, which keeps
the same `id` and carries every submitted field; the updated record is
selected afterwards and edit mode is exited. -/
theorem c4_edit_preserves_id_updates_fields
    (pre post : List JVal) (fsSel : List (String × JVal))
    (f : EventForm) (s : AppState) (sel : JVal) (i : String)
    (hsel : s.selectedEvent = some sel)
    (hobj : sel = .obj fsSel)
    (hid : sel.get "id" = .str i)
    (hitems : s.items = pre ++ sel :: post)
    (hpre : ∀ it ∈ pre, jsEq (it.get "id") (.str i) = false)
    (hpost : ∀ it ∈ post, jsEq (it.get "id") (.str i) = false) :
    (handleEditSubmit f s).items = pre ++ mkUpdatedEvent sel f :: post
    ∧ (mkUpdatedEvent sel f).get "id" = .str i
    ∧ (mkUpdatedEvent sel f).get "title" = .str f.title
    ∧ (mkUpdatedEvent sel f).get "content" = .str f.title
    ∧ (mkUpdatedEvent sel f).get "start" = .str f.start
    ∧ (mkUpdatedEvent sel f).get "end" = orNull f.endDate
    ∧ (mkUpdatedEvent sel f).get "description" = .str f.description
    ∧ (mkUpdatedEvent sel f).get "image" = .str f.image
    ∧ (mkUpdatedEvent sel f).get "location"
        = .obj [("name", .str f.locationName),
                ("lat", .num (parseFloat f.lat)),
                ("lng", .num (parseFloat f.lng))]
    ∧ (handleEditSubmit f s).selectedEvent = some (mkUpdatedEvent sel f)
    ∧ (handleEditSubmit f s).isEditing = false := by
  have hupdid : (mkUpdatedEvent sel f).get "id" = .str i := by
    rw [mkUpdatedEvent_get_id, hobj]
    rw [hobj] at hid
    simpa [spreadFields, JVal.get] using hid
  refine ⟨?_, hupdid, mkUpdatedEvent_get_title sel f, mkUpdatedEvent_get_content sel f,
    mkUpdatedEvent_get_start sel f, mkUpdatedEvent_get_end sel f,
    mkUpdatedEvent_get_description sel f, mkUpdatedEvent_get_image sel f,
    mkUpdatedEvent_get_location sel f, ?_, ?_⟩
  · simp only [handleEditSubmit, hsel, Option.getD_some, persist, hupdid, hitems,
      List.map_append, List.map_cons]
    rw [map_replace_of_no_match hpre, map_replace_of_no_match hpost, hid, jsEq_str_self]
    simp
  · simp [handleEditSubmit, hsel, persist]
  · simp [handleEditSubmit, hsel, persist]

/-- The record selected in the C4 witness scenario. -/
def c4Sel : JVal := .obj [("id", .str "a"), ("title", .str "Old")]

/-- The state of the C4 witness scenario: one record, selected, in edit
mode. -/
def c4State : AppState := ⟨[c4Sel], some c4Sel, true, none⟩

/-- The edit-form submission of the C4 witness scenario. -/
def c4Form : EventForm := ⟨"New", "2024-02-02", "", "d", "", "", "1", "2"⟩

/-- C4 witness: editing the single selected record of a concrete store
replaces it, keeps its id, and exits edit mode. -/
theorem c4_edit_preserves_id_updates_fields_witness :
    (handleEditSubmit c4Form c4State).items = [mkUpdatedEvent c4Sel c4Form]
    ∧ (mkUpdatedEvent c4Sel c4Form).get "id" = .str "a"
    ∧ (handleEditSubmit c4Form c4State).isEditing = false := by
  have h := c4_edit_preserves_id_updates_fields
    [] [] [("id", .str "a"), ("title", .str "Old")] c4Form c4State c4Sel "a"
    rfl rfl rfl rfl
    (by intro it hit; cases hit)
    (by intro it hit; cases hit)
  obtain ⟨h1, h2, -, -, -, -, -, -, -, -, h11⟩ := h
  exact ⟨h1, h2, h11⟩

theorem filter_all_of_no_match {i : String} {l : List JVal}
    (h : ∀ x ∈ l, jsEq (x.get "id") (.str i) = false) :
    l.filter (fun it => !(jsEq (it.get "id") (.str i))) = l := by
  induction l with
  | nil => rfl
  | cons a t ih =>
      have ha : jsEq (a.get "id") (.str i) = false := h a (by simp)
      simp [List.filter_cons, ha, ih (fun x hx => h x (by simp [hx]))]

/-- C5: deleting while a record (with a string id that no other
record's id equals) is selected removes exactly that record and clears
the selection. -/
theorem c5_delete_selected
    (pre post : List JVal) (s : AppState) (sel : JVal) (i : String)
    (hsel : s.selectedEvent = some sel)
    (hid : sel.get "id" = .str i)
    (hitems : s.items = pre ++ sel :: post)
    (hpre : ∀ it ∈ pre, jsEq (it.get "id") (.str i) = false)
    (hpost : ∀ it ∈ post, jsEq (it.get "id") (.str i) = false) :
    (handleDeleteEvent s).items = pre ++ post
    ∧ (handleDeleteEvent s).items.length + 1 = s.items.length
    ∧ (handleDeleteEvent s).selectedEvent = none := by
  have hfilter : (handleDeleteEvent s).items = pre ++ post := by
    simp only [handleDeleteEvent, hsel, persist, hid, hitems,
      List.filter_append, List.filter_cons]
    rw [jsEq_str_self]
    simp only [Bool.not_true, Bool.false_eq_true, if_false]
    rw [filter_all_of_no_match hpre, filter_all_of_no_match hpost]
  refine ⟨hfilter, ?_, by simp [handleDeleteEvent, hsel, persist]⟩
  rw [hfilter, hitems]
  simp [Nat.add_assoc]

/-- C5 witness: the spec's concrete scenario — store `[A, B]` with `A`
selected; deletion yields `[B]` and clears the selection. -/
theorem c5_delete_selected_witness :
    (handleDeleteEvent
        ⟨[.obj [("id", .str "a")], .obj [("id", .str "b")]],
          some (.obj [("id", .str "a")]), false, none⟩).items
      = [.obj [("id", .str "b")]]
    ∧ (handleDeleteEvent
        ⟨[.obj [("id", .str "a")], .obj [("id", .str "b")]],
          some (.obj [("id", .str "a")]), false, none⟩).selectedEvent = none := by
  have h := c5_delete_selected [] [.obj [("id", .str "b")]]
    ⟨[.obj [("id", .str "a")], .obj [("id", .str "b")]],
      some (.obj [("id", .str "a")]), false, none⟩
    (.obj [("id", .str "a")]) "a" rfl rfl rfl
    (by intro it hit; cases hit)
    (by intro it hit
        simp only [List.mem_singleton] at hit
        subst hit
        rfl)
  exact ⟨h.1, h.2.2⟩

/-- C6: importing a document that parses to an array wholesale-replaces
the store with exactly that sequence: the result equals the imported
sequence, any old record absent from the import is gone, and no alert
is raised. -/
theorem c6_import_replaces_store (s : AppState) (xs : List JVal) :
    (handleImport (.ok (.arr xs)) s).state.items = xs
    ∧ (∀ r, r ∈ s.items → r ∉ xs → r ∉ (handleImport (.ok (.arr xs)) s).state.items)
    ∧ (handleImport (.ok (.arr xs)) s).alerts = [] :=
  ⟨rfl, fun _ _ hn => hn, rfl⟩

/-- C6 witness: importing a one-record array over a store holding a
different record. -/
theorem c6_import_replaces_store_witness :
    (handleImport (.ok (.arr [.obj [("id", .str "2")]]))
        (⟨[.obj [("id", .str "1")]], none, false, none⟩ : AppState)).state.items
      = [.obj [("id", .str "2")]] :=
  (c6_import_replaces_store
    (⟨[.obj [("id", .str "1")]], none, false, none⟩ : AppState)
    [.obj [("id", .str "2")]]).1

end ChronoFrise

namespace ChronoFrise

/-- Store state reached by importing an array with two records sharing
the id "1" into the empty startup state. -/
def dupIdState : AppState :=
  applyOp (.importOp (.ok (.arr [.obj [("id", .str "1")], .obj [("id", .str "1")]])))
    initialState

/-- C7 counterexample: a state reachable from the empty store by a
single import operation holds two records with strictly equal ids, so
id uniqueness is not an invariant of the reachable states. -/
theorem c7_id_uniqueness_counterexample :
    Reachable dupIdState ∧ ¬ UniqueIds dupIdState.items := by
  refine ⟨Reachable.step _ Reachable.init, ?_⟩
  intro h
  have h' : List.Pairwise (fun a b => jsEq a b = false) [JVal.str "1", JVal.str "1"] := h
  have h2 := (List.pairwise_cons.mp h').1 (JVal.str "1") (by simp)
  rw [jsEq_str_self] at h2
  exact absurd h2 (by simp)

/-- C7 (amended): add (when the creation timestamp differs from every
existing id), edit and delete each preserve id uniqueness of the store;
the import operation installs the records unvalidated and does not. -/
theorem c7_id_uniqueness_preserved (s : AppState) (h : UniqueIds s.items) :
    (∀ f now, (∀ x ∈ idsOf s.items, jsEq x (.str (toString now)) = false) →
        UniqueIds (handleAddEvent f now s).items)
    ∧ (∀ f, UniqueIds (handleEditSubmit f s).items)
    ∧ UniqueIds (handleDeleteEvent s).items := by
  refine ⟨?_, ?_, ?_⟩
  · intro f now hfresh
    have hnewid : (mkNewEvent f now).get "id" = .str (toString now) := rfl
    have hids : idsOf (handleAddEvent f now s).items
        = idsOf s.items ++ [JVal.str (toString now)] := by
      simp [handleAddEvent, persist, idsOf, hnewid]
    unfold UniqueIds
    rw [hids]
    rw [List.pairwise_append]
    refine ⟨h, List.pairwise_singleton _ _, ?_⟩
    intro x hx y hy
    simp only [List.mem_singleton] at hy
    subst hy
    exact hfresh x hx
  · intro f
    have hids : idsOf (handleEditSubmit f s).items = idsOf s.items := by
      simp only [handleEditSubmit, persist]
      exact idsOf_replace_matching _ _
    unfold UniqueIds
    rw [hids]
    exact h
  · cases hsel : s.selectedEvent with
    | none => simpa [handleDeleteEvent, hsel] using h
    | some sel =>
        have hsub : (handleDeleteEvent s).items.Sublist s.items := by
          simp only [handleDeleteEvent, hsel, persist]
          exact List.filter_sublist _
        exact h.sublist (hsub.map _)

/-- C7 witness: the preserved operations applied at the empty startup
state, whose id list is trivially unique. -/
theorem c7_id_uniqueness_preserved_witness :
    UniqueIds (handleDeleteEvent initialState).items :=
  (c7_id_uniqueness_preserved initialState List.Pairwise.nil).2.2

/-- C8: after each successful mutation — add, edit, delete with a
selection, or import of an array — the value persisted under the fixed
localStorage key is exactly the JSON serialization of the current
record sequence. -/
theorem c8_persistence_mirror (s : AppState) (f : EventForm) (now : Nat)
    (xs : List JVal) :
    (handleAddEvent f now s).storage
        = some (serializeItems (handleAddEvent f now s).items)
    ∧ (handleEditSubmit f s).storage
        = some (serializeItems (handleEditSubmit f s).items)
    ∧ (∀ sel, s.selectedEvent = some sel →
        (handleDeleteEvent s).storage
          = some (serializeItems (handleDeleteEvent s).items))
    ∧ (handleImport (.ok (.arr xs)) s).state.storage
        = some (serializeItems (handleImport (.ok (.arr xs)) s).state.items) := by
  refine ⟨rfl, rfl, ?_, rfl⟩
  intro sel hsel
  simp [handleDeleteEvent, hsel, persist]

/-- C8 witness: the four mutations at a concrete state with a
selection. -/
theorem c8_persistence_mirror_witness :
    (handleDeleteEvent
        (⟨[.obj [("id", .str "a")]], some (.obj [("id", .str "a")]),
          false, none⟩ : AppState)).storage
      = some (serializeItems (handleDeleteEvent
          (⟨[.obj [("id", .str "a")]], some (.obj [("id", .str "a")]),
            false, none⟩ : AppState)).items) :=
  (c8_persistence_mirror
    (⟨[.obj [("id", .str "a")]], some (.obj [("id", .str "a")]), false, none⟩ : AppState)
    ⟨"", "", "", "", "", "", "", ""⟩ 0 []).2.2.1 (.obj [("id", .str "a")]) rfl

/-- The concrete add-form submission of the spec's scenario. -/
def launchForm : EventForm :=
  ⟨"Launch", "2024-01-01", "", "", "", "", "0", "0"⟩

/-- C9: adding the Launch event to the empty store yields exactly one
record, whose `end` field is null and whose `location` is
`{name:"", lat:0, lng:0}`, and that record becomes the selected one. -/
theorem c9_add_launch_concrete (now : Nat) :
    (handleAddEvent launchForm now initialState).items = [mkNewEvent launchForm now]
    ∧ (mkNewEvent launchForm now).get "end" = .null
    ∧ (mkNewEvent launchForm now).get "location"
        = .obj [("name", .str ""), ("lat", .num (.finite 0)), ("lng", .num (.finite 0))]
    ∧ (handleAddEvent launchForm now initialState).selectedEvent
        = some (mkNewEvent launchForm now) := by
  refine ⟨rfl, rfl, ?_, rfl⟩
  simp [launchForm, mkNewEvent, JVal.get, objGet, parseFloat_zero]

/-- C10: invoking delete while no record is selected is a no-op: the
store, the persisted mirror, the selection and the edit flag are all
unchanged. -/
theorem c10_delete_without_selection_noop (s : AppState)
    (h : s.selectedEvent = none) :
    handleDeleteEvent s = s := by
  simp [handleDeleteEvent, h]

/-- C10 witness: delete at the startup state, which has no selection. -/
theorem c10_delete_without_selection_noop_witness :
    handleDeleteEvent initialState = initialState :=
  c10_delete_without_selection_noop initialState rfl

end ChronoFrise
